import Mathlib

/-!
Verification development for the ImageMagick-Project1 upload/processing
pipeline.  The definitions below are shallow embeddings of the TypeScript
route handlers and utilities of the repository: the file-type validator,
the filename sanitizer, the in-memory rate limiter, the retention sweepers,
and the upload / processing POST handlers.  Machine integers are modelled
as Nat (all quantities involved are non-negative millisecond timestamps,
byte counts and list lengths), JavaScript strings as Lean strings / lists
of characters, and filesystem or subprocess effects as explicit outcome
parameters.
-/

namespace ImageMagick

/-! ## Character classes and JavaScript string primitives -/

/-- The character class of the regex used in `generateSafeFilename`
(`/[^a-zA-Z0-9]/`): ASCII digits, upper-case letters, lower-case letters. -/
def isAsciiAlphaNum (c : Char) : Bool :=
  decide ((48 ≤ c.toNat ∧ c.toNat ≤ 57) ∨ (65 ≤ c.toNat ∧ c.toNat ≤ 90) ∨
    (97 ≤ c.toNat ∧ c.toNat ≤ 122))

/-- Characters that can appear in a sanitized base name or uniqueness
token: ASCII digits, lower-case letters, and the dash. -/
def isLowerAlnumDash (c : Char) : Bool :=
  decide ((48 ≤ c.toNat ∧ c.toNat ≤ 57) ∨ (97 ≤ c.toNat ∧ c.toNat ≤ 122) ∨
    c = '-')

/-- JavaScript `toLowerCase` restricted to ASCII (the only characters the
sources apply it to that matter are ASCII; non-ASCII characters are left
unchanged by this model). -/
def jsLower (c : Char) : Char :=
  if 65 ≤ c.toNat ∧ c.toNat ≤ 90 then Char.ofNat (c.toNat + 32) else c

/-- One character of `.replace(/[^a-zA-Z0-9]/g, '-').toLowerCase()`:
replace first, lower-case second. -/
def sanitizeChar (c : Char) : Char :=
  jsLower (if isAsciiAlphaNum c then c else '-')

/-! ## Node `path` model (posix) -/

/-- Remove trailing `/` characters (Node trims them before taking the
basename). -/
def dropTrailingSlashes (l : List Char) : List Char :=
  (l.reverse.dropWhile (fun c => c == '/')).reverse

/-- The part of a path after its last `/`. -/
def afterLastSlash (l : List Char) : List Char :=
  (l.reverse.takeWhile (fun c => c != '/')).reverse

/-- `path.basename` (posix): trailing slashes are trimmed, then the last
component is taken; an all-slash path has basename `/`, the empty path has
basename the empty string. -/
def basenameChars (l : List Char) : List Char :=
  if dropTrailingSlashes l = [] then (if l = [] then [] else ['/'])
  else afterLastSlash (dropTrailingSlashes l)

/-- Split a basename at its last dot: `splitExt b = some (st, af)` when
`b = st ++ '.' :: af` and `af` contains no dot; `none` when `b` has no
dot. -/
def splitExt : List Char → Option (List Char × List Char)
  | [] => none
  | c :: cs =>
    match splitExt cs with
    | some p => some (c :: p.1, p.2)
    | none => if c = '.' then some ([], cs) else none

/-- Whether the `path.extname` corner cases apply: the last dot is the
first character of the basename, or the basename is exactly `..`; in both
cases Node reports an empty extension. -/
def extCorner (p : List Char × List Char) : Bool :=
  decide (p.1 = [] ∨ (p.1 = ['.'] ∧ p.2 = []))

/-- `path.extname` on a basename: the suffix starting at the last dot,
empty for dotless names, for a leading-dot-only name, and for `..`. -/
def extOf (b : List Char) : List Char :=
  match splitExt b with
  | none => []
  | some p => if extCorner p then [] else '.' :: p.2

/-- `path.basename(name, path.extname(name))` on a basename: the part of
the basename before its extension. -/
def stemOf (b : List Char) : List Char :=
  match splitExt b with
  | none => b
  | some p => if extCorner p then b else p.1

/-- `path.extname` on a whole path. -/
def extnamePosix (s : String) : String :=
  String.mk (extOf (basenameChars s.data))

/-! ## Filename sanitizer (`generateSafeFilename`) -/

/-- The sanitized base name:
`path.basename(originalName, extension).replace(/[^a-zA-Z0-9]/g, '-').toLowerCase()`. -/
def sanitizeBase (name : List Char) : List Char :=
  (stemOf (basenameChars name)).map sanitizeChar

/-- `generateSafeFilename` on character lists.  The uniqueness token
`uid` stands for the source's
`Date.now() + "-" + Math.random().toString(36).slice(2)` (decimal digits,
a dash, then base-36 digits); the original extension is appended
verbatim. -/
def safeFilenameChars (name uid : List Char) : List Char :=
  sanitizeBase name ++ '-' :: uid ++ extOf (basenameChars name)

/-- `generateSafeFilename` (part_000 variant:
`baseFilename-uniqueId extension`). -/
def generateSafeFilename (originalName uniqueId : String) : String :=
  String.mk (safeFilenameChars originalName.data uniqueId.data)

/-! ## File-type validator (`validateFileType`) -/

/-- An uploaded `File`: declared filename, declared MIME type, reported
byte size, and content bytes.  The handler reads `size` and `content`
independently, as the source does. -/
structure JsFile where
  name : String
  type : String
  size : Nat
  content : List Nat
deriving DecidableEq

def ALLOWED_TYPES : List String := ["image/jpeg", "image/png", "image/webp"]

def ALLOWED_EXTENSIONS : List String := [".jpg", ".jpeg", ".png", ".webp"]

def MAGIC_JPEG : List Nat := [255, 216, 255]

def MAGIC_PNG : List Nat := [137, 80, 78, 71]

def MAGIC_WEBP : List Nat := [82, 73, 70, 70]

/-- JavaScript `arr.every((byte, i) => byte === sig[i])` over an array no
longer than `sig`: pairwise comparison up to the shorter length (vacuously
true on an empty array). -/
def sigEvery (bytes sig : List Nat) : Bool :=
  (bytes.zip sig).all fun p => p.1 == p.2

/-- `path.extname(file.name).toLowerCase()`. -/
def fileExtLower (f : JsFile) : String :=
  String.mk ((extOf (basenameChars f.name.data)).map jsLower)

/-- `validateFileType` from the upload route: the declared MIME type and
the lower-cased extension must each be in the allowed set, and the first
(up to) four content bytes must match the JPEG, PNG, or WebP signature —
`fileSignature.slice(0,3)` against the JPEG bytes, the whole (≤ 4 byte)
signature against the PNG and WebP bytes. -/
def validateFileType (f : JsFile) : Bool :=
  (ALLOWED_TYPES.contains f.type && ALLOWED_EXTENSIONS.contains (fileExtLower f)) &&
    (sigEvery ((f.content.take 4).take 3) MAGIC_JPEG ||
     sigEvery (f.content.take 4) MAGIC_PNG ||
     sigEvery (f.content.take 4) MAGIC_WEBP)

/-! ## Rate limiter (`checkRateLimit`) -/

def RATE_WINDOW_MS : Nat := 15 * 60 * 1000

def MAX_REQUESTS : Nat := 100

/-- One entry of the in-memory rate-limit map:
`{ count: number; resetTime: number }`. -/
structure RLEntry where
  count : Nat
  resetTime : Nat
deriving DecidableEq

/-- The rate-limit `Map`, as an association list keyed by client IP. -/
def RLMap : Type := List (String × RLEntry)

instance : DecidableEq RLMap := by
  unfold RLMap
  infer_instance

/-- `rateLimit.get(ip)`. -/
def rlGet : RLMap → String → Option RLEntry
  | [], _ => none
  | (k, v) :: t, ip => if k = ip then some v else rlGet t ip

/-- `rateLimit.set(ip, e)`: replace the entry for `ip` in place, or append
it. -/
def rlSet : RLMap → String → RLEntry → RLMap
  | [], ip, e => [(ip, e)]
  | (k, v) :: t, ip, e =>
    if k = ip then (ip, e) :: t else (k, v) :: rlSet t ip e

/-- `checkRateLimit` from the upload route: look the key up (defaulting to
`{count: 0, resetTime: now + WINDOW_MS}`); if the window has elapsed
(`now > resetTime`) store `{count: 1, resetTime: now + WINDOW_MS}` and
allow; else if `count >= MAX_REQUESTS` deny without touching the map;
else increment the count and allow. -/
def checkRateLimit (m : RLMap) (now : Nat) (ip : String) : RLMap × Bool :=
  let u := (rlGet m ip).getD ⟨0, now + RATE_WINDOW_MS⟩
  if u.resetTime < now then
    (rlSet m ip ⟨1, now + RATE_WINDOW_MS⟩, true)
  else if MAX_REQUESTS ≤ u.count then
    (m, false)
  else
    (rlSet m ip ⟨u.count + 1, u.resetTime⟩, true)

/-- `n` consecutive calls of `checkRateLimit` for key `ip`, all at time
`now`: the final map together with the list of returned booleans. -/
def rlCalls (m : RLMap) (now : Nat) (ip : String) : Nat → RLMap × List Bool
  | 0 => (m, [])
  | n + 1 =>
    let p := rlCalls m now ip n
    let q := checkRateLimit p.1 now ip
    (q.1, p.2 ++ [q.2])

/-! ## Retention sweepers -/

def MAX_AGE_MS : Nat := 24 * 60 * 60 * 1000

/-- A directory entry as the sweepers see it: its name, its last-modified
time (`stats.mtimeMs`), and whether an attempted `unlink` would succeed. -/
structure FsEntry where
  name : String
  mtime : Nat
  deleteOk : Bool
deriving DecidableEq

/-- Whether an entry is old enough to be deleted:
`now - stats.mtimeMs > MAX_AGE` (Nat subtraction matches the JavaScript
comparison, since a negative age is never `> MAX_AGE`). -/
def isExpired (now : Nat) (e : FsEntry) : Bool :=
  decide (MAX_AGE_MS < now - e.mtime)

/-- One file of the `cleanupUploads` sweep (src/utils/cleanup.ts): delete
the entry when it is expired, with the `unlink` wrapped in its own
try/catch so a failure is only logged.  Returns the deleted name, if
any. -/
def sweepOne (now : Nat) (e : FsEntry) : Option String :=
  if isExpired now e then (if e.deleteOk then some e.name else none)
  else none

/-- `cleanupUploads` (src/utils/cleanup.ts): every entry is examined
independently (`Promise.all` over the listing, per-file try/catch around
`unlink`); the result is the list of names actually deleted. -/
def cleanupUploads (now : Nat) (entries : List FsEntry) : List String :=
  entries.filterMap (sweepOne now)

/-- `cleanupOldFiles` (part_000 upload route): a sequential `for` loop
whose `unlink` is not individually guarded — the first failing deletion
throws to the surrounding catch and the rest of the listing is never
examined.  Returns the list of names actually deleted. -/
def cleanupOldFiles (now : Nat) : List FsEntry → List String
  | [] => []
  | e :: es =>
    if isExpired now e then
      (if e.deleteOk then e.name :: cleanupOldFiles now es else [])
    else cleanupOldFiles now es

/-! ## Upload handler (`POST /api/upload`, part_000 variant) -/

def MAX_FILE_SIZE : Nat := 10 * 1024 * 1024

/-- The JSON body and status of an upload response.  `code` is optional
because not every failure body of the source carries one. -/
structure UploadResp where
  success : Bool
  error : Option String
  code : Option String
  status : Nat
  filename : Option String
deriving DecidableEq

/-- The rate-limit rejection body of the part_000 handler: built inline
by `NextResponse.json`, with no `code` field. -/
def rateLimitResp : UploadResp :=
  ⟨false, some "Rate limit exceeded", none, 429, none⟩

/-- The `INVALID_FILE` rejection body (`FileUploadError`, status 400). -/
def invalidFileResp : UploadResp :=
  ⟨false, some "No file provided or invalid file format", some "INVALID_FILE", 400, none⟩

/-- The `FILE_TOO_LARGE` rejection body (`FileUploadError`, status 400). -/
def tooLargeResp : UploadResp :=
  ⟨false, some "File size exceeds maximum limit of 10MB", some "FILE_TOO_LARGE", 400, none⟩

/-- The `INVALID_FILE_TYPE` rejection body (`FileUploadError`, status 400). -/
def invalidTypeResp : UploadResp :=
  ⟨false, some "Invalid file type. Only JPEG, PNG, and WebP files are allowed.",
    some "INVALID_FILE_TYPE", 400, none⟩

/-- The `WRITE_ERROR` rejection body (`FileUploadError`, status 500). -/
def writeErrorResp : UploadResp :=
  ⟨false, some "File failed to write to disk", some "WRITE_ERROR", 500, none⟩

/-- The catch-all body of the part_000 handler: a non-`FileUploadError`
exception is reported with its own message, code `UNKNOWN_ERROR`, and
status 500. -/
def unknownErrorResp (msg : String) : UploadResp :=
  ⟨false, some msg, some "UNKNOWN_ERROR", 500, none⟩

/-- The upload `POST` handler (part_000): rate limit first (its rejection
body has no `code` field), then the file-presence, size, and type checks
(each thrown as a `FileUploadError` with a code and a 400 status), then
the write whose stats re-read failing yields `WRITE_ERROR`/500, then the
success body.  Any other exception reaches the catch-all and is reported
as 500 with code `UNKNOWN_ERROR` and the exception's message.
`preExc` is the message of an unexpected exception thrown by
`ensureUploadDirectory` (`mkdir`) or `req.formData()` — these run after
the rate-limit check and before the file is examined; `writeExc` is the
message of an unexpected exception thrown by `file.arrayBuffer()` or
`writeFile` — these run only once validation has passed.  `statsOk`
models whether the `stat` re-read succeeds after the write; `uid` is the
uniqueness token used for the stored filename. -/
def uploadPOST (m : RLMap) (now : Nat) (ip : String) :
    Option JsFile → Bool → List Char → Option String → Option String →
      RLMap × UploadResp
  | _, _, _, some msg, _ =>
    let rl := checkRateLimit m now ip
    if rl.2 = false then (rl.1, rateLimitResp)
    else (rl.1, unknownErrorResp msg)
  | none, _, _, none, _ =>
    let rl := checkRateLimit m now ip
    if rl.2 = false then (rl.1, rateLimitResp)
    else (rl.1, invalidFileResp)
  | some f, _, _, none, some msg =>
    let rl := checkRateLimit m now ip
    if rl.2 = false then (rl.1, rateLimitResp)
    else if MAX_FILE_SIZE < f.size then (rl.1, tooLargeResp)
    else if validateFileType f = false then (rl.1, invalidTypeResp)
    else (rl.1, unknownErrorResp msg)
  | some f, statsOk, uid, none, none =>
    let rl := checkRateLimit m now ip
    if rl.2 = false then (rl.1, rateLimitResp)
    else if MAX_FILE_SIZE < f.size then (rl.1, tooLargeResp)
    else if validateFileType f = false then (rl.1, invalidTypeResp)
    else if statsOk = false then (rl.1, writeErrorResp)
    else (rl.1, ⟨true, none, none, 200,
      some (String.mk (safeFilenameChars f.name.data uid))⟩)

/-! ## Upload handler variants: part_001 and app/api/upload/route.ts -/

/-- The per-request configuration the processing route reads from the
`config` form field. -/
structure ProcConfig where
  resize : Bool
  width : Nat
  height : Nat
  colorCorrection : Bool
  outputFormat : String
deriving DecidableEq

/-- One file of a processing batch: its client name, the unique prefix
generated for it, and whether the external `convert` invocation would
succeed on it. -/
structure ProcEntry where
  name : String
  tok : String
  execOk : Bool
deriving DecidableEq

/-- The ImageMagick command line the route builds for one file. -/
def buildCommand (uploadPath outputPath : String) (cfg : ProcConfig) : String :=
  "convert \"" ++ uploadPath ++ "\"" ++
    (if cfg.resize then
      " -resize " ++ toString cfg.width ++ "x" ++ toString cfg.height ++ "!"
    else "") ++
    (if cfg.colorCorrection then " -auto-level -normalize" else "") ++
    " \"" ++ outputPath ++ "." ++ String.mk (cfg.outputFormat.data.map jsLower) ++ "\""

/-- The descriptor pushed for one successfully processed file. -/
structure ProcDesc where
  original : String
  processed : String
  url : String
deriving DecidableEq

/-- The descriptor built from a batch entry and the configuration. -/
def procDescOf (cfg : ProcConfig) (e : ProcEntry) : ProcDesc :=
  let outName := "processed-" ++ e.tok ++ "-" ++ e.name ++ "." ++
    String.mk (cfg.outputFormat.data.map jsLower)
  ⟨e.name, outName, "/processed/" ++ outName⟩

/-- A processing response: either the success body with its descriptor
list, or an error body with its status. -/
inductive ProcResponse where
  | ok (files : List ProcDesc)
  | err (error : String) (status : Nat)
deriving DecidableEq

/-- The sequential loop of the processing route: each file is written,
converted, and appended; the first failing `convert` throws to the
handler's catch. -/
def processFiles (cfg : ProcConfig) : List ProcEntry → Option (List ProcDesc)
  | [] => some []
  | e :: es =>
    if e.execOk then (processFiles cfg es).map (procDescOf cfg e :: ·)
    else none

/-- The processing `POST` handler: an empty batch is a 400; otherwise the
loop runs, and a thrown `convert` failure is caught and reported as a
generic 500 with no descriptor list. -/
def processPOST (files : List ProcEntry) (cfg : ProcConfig) : ProcResponse :=
  if files.isEmpty then ProcResponse.err "No files provided" 400
  else
    match processFiles cfg files with
    | some ds => ProcResponse.ok ds
    | none => ProcResponse.err "Failed to process images" 500

/-! ## Character lemmas -/

theorem charOfNat_plus32 (n : Nat) (h1 : 65 ≤ n) (h2 : n ≤ 90) :
    (Char.ofNat (n + 32)).toNat = n + 32 := by
  interval_cases n <;> decide

theorem jsLower_fixed {c : Char} (h : isLowerAlnumDash c = true) : jsLower c = c := by
  simp only [isLowerAlnumDash, decide_eq_true_eq] at h
  rcases h with h | h | h
  · unfold jsLower
    rw [if_neg (by omega)]
  · unfold jsLower
    rw [if_neg (by omega)]
  · subst h
    decide

theorem isLowerAlnumDash_sanitizeChar (c : Char) : isLowerAlnumDash (sanitizeChar c) = true := by
  unfold sanitizeChar
  cases halnum : isAsciiAlphaNum c with
  | false =>
    rw [if_neg (by simp [halnum])]
    decide
  | true =>
    rw [if_pos (by simp [halnum])]
    simp only [isAsciiAlphaNum, decide_eq_true_eq] at halnum
    rcases halnum with h | h | h
    · rw [jsLower, if_neg (by omega)]
      simp only [isLowerAlnumDash, decide_eq_true_eq]
      exact Or.inl ⟨h.1, h.2⟩
    · rw [jsLower, if_pos (by omega)]
      simp only [isLowerAlnumDash, decide_eq_true_eq]
      rw [charOfNat_plus32 c.toNat h.1 h.2]
      omega
    · rw [jsLower, if_neg (by omega)]
      simp only [isLowerAlnumDash, decide_eq_true_eq]
      exact Or.inr (Or.inl ⟨h.1, h.2⟩)

theorem sanitizeChar_fixed {c : Char} (h : isLowerAlnumDash c = true) :
    sanitizeChar c = c := by
  unfold sanitizeChar
  have h' := h
  simp only [isLowerAlnumDash, decide_eq_true_eq] at h'
  rcases h' with h' | h' | h'
  · rw [if_pos (by simp only [isAsciiAlphaNum, decide_eq_true_eq]; omega)]
    exact jsLower_fixed h
  · rw [if_pos (by simp only [isAsciiAlphaNum, decide_eq_true_eq]; omega)]
    exact jsLower_fixed h
  · subst h'
    decide

theorem map_sanitizeChar_id {l : List Char} (h : ∀ c ∈ l, isLowerAlnumDash c = true) :
    l.map sanitizeChar = l := by
  induction l with
  | nil => rfl
  | cons c t ih =>
    simp only [List.map_cons]
    rw [sanitizeChar_fixed (h c (by simp)), ih (fun x hx => h x (by simp [hx]))]

/-! ## Path lemmas -/

theorem splitExt_eq_none {l : List Char} : splitExt l = none ↔ '.' ∉ l := by
  induction l with
  | nil => simp [splitExt]
  | cons c t ih =>
    simp only [splitExt]
    rcases h : splitExt t with _ | p
    · have ht : '.' ∉ t := ih.mp h
      by_cases hc : c = '.'
      · subst hc
        simp [List.mem_cons]
      · simp [hc, ht, List.mem_cons, Ne.symm hc]
    · have ht : '.' ∈ t := by
        by_contra hh
        rw [← ih, h] at hh
        exact absurd hh (by simp)
      simp [List.mem_cons, ht]

theorem splitExt_spec {l : List Char} {p : List Char × List Char} (h : splitExt l = some p) :
    l = p.1 ++ '.' :: p.2 ∧ '.' ∉ p.2 := by
  induction l generalizing p with
  | nil => simp [splitExt] at h
  | cons c t ih =>
    simp only [splitExt] at h
    rcases h2 : splitExt t with _ | q
    · rw [h2] at h
      by_cases hc : c = '.'
      · rw [if_pos hc] at h
        injection h with h3
        subst h3
        subst hc
        exact ⟨by simp, splitExt_eq_none.mp h2⟩
      · rw [if_neg hc] at h
        exact absurd h (by simp)
    · rw [h2] at h
      injection h with h3
      subst h3
      obtain ⟨hq1, hq2⟩ := ih h2
      refine ⟨?_, hq2⟩
      simp only [List.cons_append, List.cons.injEq]
      exact ⟨trivial, hq1⟩

theorem splitExt_append {st af : List Char} (h : '.' ∉ af) :
    splitExt (st ++ '.' :: af) = some (st, af) := by
  induction st with
  | nil =>
    simp [splitExt, splitExt_eq_none.mpr h]
  | cons c t ih =>
    simp only [List.cons_append, splitExt, List.append_eq, ih]

theorem basenameChars_of_no_slash {l : List Char} (h1 : l ≠ []) (h2 : '/' ∉ l) :
    basenameChars l = l := by
  have hd : l.reverse.dropWhile (fun c => c == '/') = l.reverse := by
    cases hr : l.reverse with
    | nil => rfl
    | cons c t =>
      have hcl : c ∈ l := by
        rw [← List.mem_reverse, hr]
        simp
      have hcne : c ≠ '/' := fun heq => h2 (heq ▸ hcl)
      rw [List.dropWhile_cons]
      simp [hcne]
  have ht : l.reverse.takeWhile (fun c => c != '/') = l.reverse := by
    rw [List.takeWhile_eq_self_iff]
    intro x hx
    simp only [bne_iff_ne, ne_eq]
    intro heq
    exact h2 (heq ▸ (List.mem_reverse.mp hx))
  have hdrop : dropTrailingSlashes l = l := by
    unfold dropTrailingSlashes
    rw [hd, List.reverse_reverse]
  unfold basenameChars
  rw [hdrop, if_neg h1]
  unfold afterLastSlash
  rw [ht, List.reverse_reverse]

theorem mem_afterLastSlash {l : List Char} {c : Char} (h : c ∈ afterLastSlash l) :
    c ≠ '/' := by
  unfold afterLastSlash at h
  rw [List.mem_reverse] at h
  have := List.mem_takeWhile_imp h
  simpa using this

theorem basename_slash_cases (l : List Char) :
    basenameChars l = ['/'] ∨ '/' ∉ basenameChars l := by
  unfold basenameChars
  by_cases h : dropTrailingSlashes l = []
  · rw [if_pos h]
    by_cases h2 : l = []
    · right
      simp [h2]
    · left
      simp [h2]
  · right
    rw [if_neg h]
    intro hmem
    exact mem_afterLastSlash hmem rfl

theorem extOf_basename_shape (name : List Char) :
    extOf (basenameChars name) = [] ∨
    ∃ af, extOf (basenameChars name) = '.' :: af ∧ '.' ∉ af ∧ '/' ∉ af := by
  unfold extOf
  rcases hs : splitExt (basenameChars name) with _ | p
  · left
    rfl
  · cases hc : extCorner p with
    | true => left; simp [hc]
    | false =>
      right
      obtain ⟨heq, hdot⟩ := splitExt_spec hs
      refine ⟨p.2, by simp [hc], hdot, ?_⟩
      rcases basename_slash_cases name with hbs | hbs
      · rw [hbs] at hs
        simp [splitExt] at hs
      · intro hm
        apply hbs
        rw [heq]
        simp [hm]

theorem sanitizeBase_mem {name : List Char} {c : Char} (h : c ∈ sanitizeBase name) :
    isLowerAlnumDash c = true := by
  unfold sanitizeBase at h
  obtain ⟨d, _, rfl⟩ := List.mem_map.mp h
  exact isLowerAlnumDash_sanitizeChar d

/-! ## Shared facts about the sanitizer output -/

theorem stemOf_of_no_dot {l : List Char} (h : '.' ∉ l) : stemOf l = l := by
  unfold stemOf
  rw [splitExt_eq_none.mpr h]

theorem extOf_of_no_dot {l : List Char} (h : '.' ∉ l) : extOf l = [] := by
  unfold extOf
  rw [splitExt_eq_none.mpr h]

theorem stemOf_append_ext {pre af : List Char} (hafdot : '.' ∉ af)
    (hne : pre ≠ []) (hpd : pre ≠ ['.']) : stemOf (pre ++ '.' :: af) = pre := by
  unfold stemOf
  rw [splitExt_append hafdot]
  have hcor : extCorner (pre, af) = false := by
    unfold extCorner
    simp [hne, hpd]
  simp [hcor]

theorem extOf_append_ext {pre af : List Char} (hafdot : '.' ∉ af)
    (hne : pre ≠ []) (hpd : pre ≠ ['.']) :
    extOf (pre ++ '.' :: af) = '.' :: af := by
  unfold extOf
  rw [splitExt_append hafdot]
  have hcor : extCorner (pre, af) = false := by
    unfold extCorner
    simp [hne, hpd]
  simp [hcor]

theorem safe_prefix_charset {name uid : List Char}
    (h : ∀ c ∈ uid, isLowerAlnumDash c = true) :
    ∀ c ∈ sanitizeBase name ++ '-' :: uid, isLowerAlnumDash c = true := by
  intro c hc
  rcases List.mem_append.mp hc with h1 | h1
  · exact sanitizeBase_mem h1
  · rcases List.mem_cons.mp h1 with h2 | h2
    · subst h2
      decide
    · exact h c h2

theorem safe_prefix_no_dot {name uid : List Char}
    (h : ∀ c ∈ uid, isLowerAlnumDash c = true) :
    '.' ∉ sanitizeBase name ++ '-' :: uid :=
  fun hm => absurd (safe_prefix_charset h _ hm) (by decide)

theorem safe_prefix_no_slash {name uid : List Char}
    (h : ∀ c ∈ uid, isLowerAlnumDash c = true) :
    '/' ∉ sanitizeBase name ++ '-' :: uid :=
  fun hm => absurd (safe_prefix_charset h _ hm) (by decide)

/-- Re-sanitizing a nonempty list of `[a-z0-9-]` characters (no
extension): the base survives untouched and the new token is appended. -/
theorem safeFilename_of_clean (pre uid2 : List Char)
    (hchar : ∀ c ∈ pre, isLowerAlnumDash c = true) (hne : pre ≠ []) :
    safeFilenameChars pre uid2 = pre ++ '-' :: uid2 := by
  have hnodot : '.' ∉ pre := fun hm => absurd (hchar _ hm) (by decide)
  have hnoslash : '/' ∉ pre := fun hm => absurd (hchar _ hm) (by decide)
  unfold safeFilenameChars sanitizeBase
  rw [basenameChars_of_no_slash hne hnoslash, stemOf_of_no_dot hnodot,
    extOf_of_no_dot hnodot, map_sanitizeChar_id hchar]
  simp

/-- Re-sanitizing a nonempty list of `[a-z0-9-]` characters followed by a
dot-led extension: the base and the extension survive untouched, the new
token is inserted between them. -/
theorem safeFilename_of_clean_ext (pre af uid2 : List Char)
    (hchar : ∀ c ∈ pre, isLowerAlnumDash c = true) (hne : pre ≠ [])
    (hafdot : '.' ∉ af) (hafslash : '/' ∉ af) :
    safeFilenameChars (pre ++ '.' :: af) uid2 = pre ++ '-' :: uid2 ++ '.' :: af := by
  have hnodot : '.' ∉ pre := fun hm => absurd (hchar _ hm) (by decide)
  have hnoslash : '/' ∉ pre := fun hm => absurd (hchar _ hm) (by decide)
  have hpd : pre ≠ ['.'] := by
    intro hq
    exact hnodot (hq ▸ (by simp : '.' ∈ (['.'] : List Char)))
  have hnoslash2 : '/' ∉ pre ++ '.' :: af := by
    intro hm
    rcases List.mem_append.mp hm with h1 | h1
    · exact hnoslash h1
    · rcases List.mem_cons.mp h1 with h2 | h2
      · exact absurd h2 (by decide)
      · exact hafslash h2
  have hne2 : pre ++ '.' :: af ≠ [] := by simp
  unfold safeFilenameChars sanitizeBase
  rw [basenameChars_of_no_slash hne2 hnoslash2, stemOf_append_ext hafdot hne hpd,
    extOf_append_ext hafdot hne hpd, map_sanitizeChar_id hchar]

/-- C4 is refuted on this input: the extension is appended to the
sanitized name verbatim, so a name whose extension contains a backslash
produces a "safe" filename that still contains that backslash. -/
theorem c4_counterexample :
    '\\' ∈ (generateSafeFilename "a.j\\pg" "17-k9z2").data := by decide

/-- C4 (amended): for every input string and every uniqueness token drawn
from `[0-9a-z-]`, the generated filename never contains `/` and never
contains the substring `..`, and its sanitized base plus uniqueness
suffix consist only of characters in `[a-z0-9-]`; the preserved original
extension, however, is copied verbatim and may contain characters outside
`[a-zA-Z0-9.-_]`, including a backslash. -/
theorem c4_safe_filename_charset (name uid : List Char)
    (h : ∀ c ∈ uid, isLowerAlnumDash c = true) :
    '/' ∉ safeFilenameChars name uid ∧
    ¬ (['.', '.'] <:+: safeFilenameChars name uid) ∧
    ∀ c ∈ sanitizeBase name ++ '-' :: uid, isLowerAlnumDash c = true := by
  have hpre := @safe_prefix_charset name _ h
  have hext := extOf_basename_shape name
  have hsfc : safeFilenameChars name uid =
      (sanitizeBase name ++ '-' :: uid) ++ extOf (basenameChars name) := by
    unfold safeFilenameChars
    simp
  refine ⟨?_, ?_, hpre⟩
  · intro hm
    rw [hsfc] at hm
    rcases List.mem_append.mp hm with h1 | h1
    · exact safe_prefix_no_slash h h1
    · rcases hext with he | ⟨af, he, _, hafs⟩
      · rw [he] at h1
        simp at h1
      · rw [he] at h1
        rcases List.mem_cons.mp h1 with h2 | h2
        · exact absurd h2 (by decide)
        · exact hafs h2
  · intro hinf
    have hcnt2 : List.count '.' ['.', '.'] ≤ List.count '.' (safeFilenameChars name uid) :=
      hinf.sublist.count_le '.'
    have hone : List.count '.' (safeFilenameChars name uid) ≤ 1 := by
      rw [hsfc, List.count_append]
      have hz : List.count '.' (sanitizeBase name ++ '-' :: uid) = 0 :=
        List.count_eq_zero.mpr (safe_prefix_no_dot h)
      have he1 : List.count '.' (extOf (basenameChars name)) ≤ 1 := by
        rcases hext with he | ⟨af, he, hafd, _⟩
        · simp [he]
        · rw [he]
          simp [List.count_cons, List.count_eq_zero.mpr hafd]
      omega
    simp at hcnt2
    omega

/-- Closed instance of the amended C4 theorem at a concrete name and
token. -/
theorem c4_witness :
    '/' ∉ safeFilenameChars ("My Photo (1).JPG").data ("17-k9z2").data ∧
    ¬ (['.', '.'] <:+: safeFilenameChars ("My Photo (1).JPG").data ("17-k9z2").data) ∧
    ∀ c ∈ sanitizeBase ("My Photo (1).JPG").data ++ '-' :: ("17-k9z2").data,
      isLowerAlnumDash c = true :=
  c4_safe_filename_charset _ _ (by decide)

/-- C9: re-sanitizing the sanitizer's own output changes nothing but the
freshly appended uniqueness token: the previously sanitized base, the
previous token, and the preserved extension all survive a second
application unchanged, with only the new token inserted before the
extension. -/
theorem c9_sanitize_idempotent (name uid1 uid2 : List Char)
    (h : ∀ c ∈ uid1, isLowerAlnumDash c = true) :
    safeFilenameChars (safeFilenameChars name uid1) uid2 =
      (sanitizeBase name ++ '-' :: uid1) ++ '-' :: uid2 ++ extOf (basenameChars name) := by
  have hpre := @safe_prefix_charset name _ h
  rcases extOf_basename_shape name with hE | ⟨af, hE, hafdot, hafslash⟩
  · have ho : safeFilenameChars name uid1 = sanitizeBase name ++ '-' :: uid1 := by
      unfold safeFilenameChars
      rw [hE]
      simp
    rw [ho, safeFilename_of_clean _ _ hpre (by simp), hE]
    simp
  · have ho : safeFilenameChars name uid1 =
        (sanitizeBase name ++ '-' :: uid1) ++ '.' :: af := by
      unfold safeFilenameChars
      rw [hE]
    rw [ho, safeFilename_of_clean_ext _ _ _ hpre (by simp) hafdot hafslash, hE]

/-- Closed instance of the C9 theorem at a concrete name and tokens. -/
theorem c9_witness :
    safeFilenameChars (safeFilenameChars ("My Photo (1).JPG").data ("17-k9z2").data)
        ("18-m0q3").data =
      (sanitizeBase ("My Photo (1).JPG").data ++ '-' :: ("17-k9z2").data) ++
        '-' :: ("18-m0q3").data ++ extOf (basenameChars ("My Photo (1).JPG").data) :=
  c9_sanitize_idempotent _ _ _ (by decide)

/-! ## Magic-signature lemmas and claim C1 -/

theorem sigEvery_iff (b s : List Nat) : sigEvery b s = true ↔ (s <+: b ∨ b <+: s) := by
  induction b generalizing s with
  | nil => simp [sigEvery, List.nil_prefix]
  | cons x b ih =>
    cases s with
    | nil => simp [sigEvery, List.nil_prefix]
    | cons y s =>
      have ihs := ih s
      simp only [sigEvery] at ihs ⊢
      simp only [List.zip_cons_cons, List.all_cons, Bool.and_eq_true, beq_iff_eq]
      rw [List.cons_prefix_cons, List.cons_prefix_cons]
      constructor
      · rintro ⟨hxy, hrest⟩
        rcases ihs.mp hrest with h1 | h1
        · exact Or.inl ⟨hxy.symm, h1⟩
        · exact Or.inr ⟨hxy, h1⟩
      · rintro (⟨hxy, h1⟩ | ⟨hxy, h1⟩)
        · exact ⟨hxy.symm, ihs.mpr (Or.inl h1)⟩
        · exact ⟨hxy, ihs.mpr (Or.inr h1)⟩

theorem sigEvery_take_iff (s c : List Nat) (n : Nat) (h : s.length ≤ n) :
    sigEvery (c.take n) s = true ↔ (s <+: c ∨ c <+: s) := by
  rw [sigEvery_iff]
  constructor
  · rintro (h1 | h1)
    · exact Or.inl (List.prefix_take_iff.mp h1).1
    · by_cases hc : c.length ≤ n
      · rw [List.take_of_length_le hc] at h1
        exact Or.inr h1
      · push_neg at hc
        have hlen : (c.take n).length = n := by
          rw [List.length_take]
          omega
        have hsl := h1.length_le
        have hseq : c.take n = s := by
          apply List.IsPrefix.eq_of_length h1
          rw [hlen]
          rw [hlen] at hsl
          omega
        exact Or.inl (hseq ▸ List.take_prefix n c)
  · rintro (h1 | h1)
    · exact Or.inl (List.prefix_take_iff.mpr ⟨h1, h⟩)
    · exact Or.inr ((List.take_prefix n c).trans h1)

/-- C1 is refuted on the very input named in the claim: a buffer starting
with the PNG magic bytes `89 50 4E 47`, declared as `image/jpeg` with a
`.jpg` extension, passes `validateFileType` — the code compares the
signature against ALL three allowed signatures, never against the one
corresponding to the declared MIME type. -/
theorem c1_counterexample :
    validateFileType ⟨"x.jpg", "image/jpeg", 2048, [137, 80, 78, 71, 13, 10]⟩ = true := by
  decide

/-- C1 (amended): `validateFileType` accepts exactly when the declared
MIME type is allowed, the lower-cased extension is allowed, and the
content agrees with at least one of the three magic signatures on the
shorter of the two lengths (a buffer shorter than a signature matches it
vacuously); the signature checked is not required to correspond to the
declared MIME type. -/
theorem c1_validate_file_type_spec (f : JsFile) :
    validateFileType f = true ↔
      (f.type ∈ ALLOWED_TYPES ∧ fileExtLower f ∈ ALLOWED_EXTENSIONS ∧
        ((MAGIC_JPEG <+: f.content ∨ f.content <+: MAGIC_JPEG) ∨
         (MAGIC_PNG <+: f.content ∨ f.content <+: MAGIC_PNG) ∨
         (MAGIC_WEBP <+: f.content ∨ f.content <+: MAGIC_WEBP))) := by
  unfold validateFileType
  rw [List.take_take]
  have hm : min 3 4 = 3 := by decide
  rw [hm]
  simp only [Bool.and_eq_true, Bool.or_eq_true]
  rw [sigEvery_take_iff MAGIC_JPEG f.content 3 (by decide),
    sigEvery_take_iff MAGIC_PNG f.content 4 (by decide),
    sigEvery_take_iff MAGIC_WEBP f.content 4 (by decide)]
  simp only [List.contains, List.elem_iff]
  tauto

/-! ## Rate-limiter lemmas and claims C3, C10 -/

theorem checkRateLimit_fresh (t : Nat) (ip : String) :
    checkRateLimit [] t ip = ([(ip, ⟨1, t + RATE_WINDOW_MS⟩)], true) := by
  simp only [checkRateLimit, rlGet, Option.getD]
  rw [if_neg (by simp), if_neg (by simp [MAX_REQUESTS])]
  rfl

theorem checkRateLimit_active (m : RLMap) (t : Nat) (ip : String) (e : RLEntry)
    (hget : rlGet m ip = some e) (hwin : ¬ e.resetTime < t)
    (hcnt : e.count < MAX_REQUESTS) :
    checkRateLimit m t ip = (rlSet m ip ⟨e.count + 1, e.resetTime⟩, true) := by
  simp only [checkRateLimit, hget, Option.getD]
  rw [if_neg hwin, if_neg (by omega)]

theorem checkRateLimit_deny (m : RLMap) (t : Nat) (ip : String) (e : RLEntry)
    (hget : rlGet m ip = some e) (hwin : ¬ e.resetTime < t)
    (hcnt : MAX_REQUESTS ≤ e.count) :
    checkRateLimit m t ip = (m, false) := by
  simp only [checkRateLimit, hget, Option.getD]
  rw [if_neg hwin, if_pos hcnt]

theorem checkRateLimit_reset (m : RLMap) (t : Nat) (ip : String) (e : RLEntry)
    (hget : rlGet m ip = some e) (hwin : e.resetTime < t) :
    checkRateLimit m t ip = (rlSet m ip ⟨1, t + RATE_WINDOW_MS⟩, true) := by
  simp only [checkRateLimit, hget, Option.getD]
  rw [if_pos hwin]

theorem rlCalls_succ (m : RLMap) (now : Nat) (ip : String) (n : Nat) :
    rlCalls m now ip (n + 1) =
      ((checkRateLimit (rlCalls m now ip n).1 now ip).1,
        (rlCalls m now ip n).2 ++ [(checkRateLimit (rlCalls m now ip n).1 now ip).2]) := rfl

/-- Running `n ≤ 100` calls at one instant from an empty map: all are
allowed and the entry holds count `n` with the window end set by the first
call. -/
theorem rl_run (t : Nat) (ip : String) :
    ∀ n, 1 ≤ n → n ≤ MAX_REQUESTS →
      rlCalls [] t ip n = ([(ip, ⟨n, t + RATE_WINDOW_MS⟩)], List.replicate n true) := by
  intro n
  induction n with
  | zero => omega
  | succ n ih =>
    intro h1 h2
    by_cases hn : n = 0
    · subst hn
      rw [rlCalls_succ]
      have h0 : rlCalls [] t ip 0 = ([], []) := rfl
      rw [h0, checkRateLimit_fresh]
      rfl
    · have hrec := ih (by omega) (by omega)
      rw [rlCalls_succ, hrec]
      have hstep : checkRateLimit [(ip, ⟨n, t + RATE_WINDOW_MS⟩)] t ip =
          ([(ip, ⟨n + 1, t + RATE_WINDOW_MS⟩)], true) := by
        rw [checkRateLimit_active _ _ _ ⟨n, t + RATE_WINDOW_MS⟩ (by simp [rlGet])
          (by simp) (by show n < MAX_REQUESTS; omega)]
        simp [rlSet]
      rw [hstep, List.replicate_succ']

/-- C3: for a fresh key and a fixed call time `t`, the first 100 calls to
the rate limiter all return `true`; the 101st call in the same window
returns `false`; and the first call at a time `tl` past the window end
returns `true` again, resetting the count to 1 and installing the new
window end `tl + 15min`. -/
theorem c3_rate_limiter_window (t tl : Nat) (ip : String)
    (h : t + RATE_WINDOW_MS < tl) :
    (rlCalls [] t ip MAX_REQUESTS).2 = List.replicate MAX_REQUESTS true ∧
    (rlCalls [] t ip (MAX_REQUESTS + 1)).2 = List.replicate MAX_REQUESTS true ++ [false] ∧
    checkRateLimit (rlCalls [] t ip (MAX_REQUESTS + 1)).1 tl ip =
      ([(ip, ⟨1, tl + RATE_WINDOW_MS⟩)], true) := by
  have h100 := rl_run t ip MAX_REQUESTS (by decide) (le_refl _)
  have hden : checkRateLimit [(ip, ⟨MAX_REQUESTS, t + RATE_WINDOW_MS⟩)] t ip =
      ([(ip, ⟨MAX_REQUESTS, t + RATE_WINDOW_MS⟩)], false) :=
    checkRateLimit_deny _ _ _ ⟨MAX_REQUESTS, t + RATE_WINDOW_MS⟩ (by simp [rlGet])
      (by simp) (le_refl _)
  have h101 : rlCalls [] t ip (MAX_REQUESTS + 1) =
      ([(ip, ⟨MAX_REQUESTS, t + RATE_WINDOW_MS⟩)], List.replicate MAX_REQUESTS true ++ [false]) := by
    rw [rlCalls_succ, h100, hden]
  refine ⟨by rw [h100], by rw [h101], ?_⟩
  rw [h101]
  rw [checkRateLimit_reset _ _ _ ⟨MAX_REQUESTS, t + RATE_WINDOW_MS⟩ (by simp [rlGet])
    (by simpa using h)]
  simp [rlSet]

/-- Closed instance of the C3 theorem at `t = 0`, `tl` one past the window
end. -/
theorem c3_witness :
    (rlCalls [] 0 "k" MAX_REQUESTS).2 = List.replicate MAX_REQUESTS true ∧
    (rlCalls [] 0 "k" (MAX_REQUESTS + 1)).2 = List.replicate MAX_REQUESTS true ++ [false] ∧
    checkRateLimit (rlCalls [] 0 "k" (MAX_REQUESTS + 1)).1 (RATE_WINDOW_MS + 1) "k" =
      ([("k", ⟨1, RATE_WINDOW_MS + 1 + RATE_WINDOW_MS⟩)], true) :=
  c3_rate_limiter_window 0 (RATE_WINDOW_MS + 1) "k" (by omega)

/-- C10: a denied call leaves the rate-limit map completely unchanged —
the `return false` in the source fires before any mutation and before
`rateLimit.set`, so a rejected request neither consumes quota nor extends
the window. -/
theorem c10_deny_leaves_map (m : RLMap) (now : Nat) (ip : String)
    (h : (checkRateLimit m now ip).2 = false) :
    (checkRateLimit m now ip).1 = m := by
  by_cases h1 : ((rlGet m ip).getD ⟨0, now + RATE_WINDOW_MS⟩).resetTime < now
  · exfalso
    have ht : (checkRateLimit m now ip).2 = true := by
      simp only [checkRateLimit]
      rw [if_pos h1]
    simp [ht] at h
  · by_cases h2 : MAX_REQUESTS ≤ ((rlGet m ip).getD ⟨0, now + RATE_WINDOW_MS⟩).count
    · simp only [checkRateLimit]
      rw [if_neg h1, if_pos h2]
    · exfalso
      have ht : (checkRateLimit m now ip).2 = true := by
        simp only [checkRateLimit]
        rw [if_neg h1, if_neg h2]
      simp [ht] at h

/-- Closed instance of the C10 theorem at a saturated entry. -/
theorem c10_witness :
    (checkRateLimit [("k", ⟨100, 1000⟩)] 500 "k").2 = false ∧
    (checkRateLimit [("k", ⟨100, 1000⟩)] 500 "k").1 = [("k", ⟨100, 1000⟩)] :=
  ⟨by decide, c10_deny_leaves_map _ _ _ (by decide)⟩

/-! ## Retention-sweep claims C5 -/

/-- C5 is refuted on the part_000 sweeper `cleanupOldFiles`: with two
expired entries of which the first fails to delete, the sequential loop
throws at the first `unlink` and the second expired entry — which would
have been deleted — is never examined, so nothing is deleted at all. -/
theorem c5_counterexample :
    cleanupOldFiles 360000000 [⟨"a", 270000000, false⟩, ⟨"b", 270000000, true⟩] = [] ∧
    isExpired 360000000 ⟨"b", 270000000, true⟩ = true := by decide

/-- C5 (amended): the `cleanupUploads` sweeper of src/utils/cleanup.ts
deletes exactly the entries that are strictly older than 24 hours and
whose deletion succeeds, and a failing deletion is isolated — removing the
failing entry from the listing leaves the set of other deletions
unchanged.  The part_000 variant `cleanupOldFiles`, by contrast, aborts
the remainder of the sweep at the first failed deletion. -/
theorem c5_cleanup_uploads_spec (now : Nat) (es l1 l2 : List FsEntry) (e : FsEntry)
    (hfail : e.deleteOk = false) :
    (∀ x, x ∈ cleanupUploads now es ↔
      ∃ f ∈ es, f.name = x ∧ isExpired now f = true ∧ f.deleteOk = true) ∧
    cleanupUploads now (l1 ++ e :: l2) = cleanupUploads now (l1 ++ l2) := by
  constructor
  · intro x
    unfold cleanupUploads
    rw [List.mem_filterMap]
    constructor
    · rintro ⟨f, hf, hsw⟩
      unfold sweepOne at hsw
      by_cases hx : isExpired now f = true
      · rw [if_pos hx] at hsw
        by_cases hd : f.deleteOk = true
        · rw [if_pos hd] at hsw
          injection hsw with hsw
          exact ⟨f, hf, hsw, hx, hd⟩
        · rw [if_neg hd] at hsw
          exact absurd hsw (by simp)
      · rw [if_neg hx] at hsw
        exact absurd hsw (by simp)
    · rintro ⟨f, hf, hname, hexp, hok⟩
      refine ⟨f, hf, ?_⟩
      unfold sweepOne
      rw [if_pos hexp, if_pos hok, hname]
  · unfold cleanupUploads
    rw [List.filterMap_append, List.filterMap_append]
    congr 1
    simp only [List.filterMap_cons]
    have hnone : sweepOne now e = none := by
      unfold sweepOne
      by_cases hx : isExpired now e = true
      · rw [if_pos hx, if_neg (by simp [hfail])]
      · rw [if_neg hx]
    rw [hnone]

/-- Closed instance of the amended C5 theorem: the spec scenario (one file
25 hours old, one 1 hour old) plus a failing expired entry in between. -/
theorem c5_witness :
    (∀ x, x ∈ cleanupUploads 360000000
        [⟨"old", 270000000, true⟩, ⟨"fresh", 356400000, true⟩] ↔
      ∃ f ∈ [(⟨"old", 270000000, true⟩ : FsEntry), ⟨"fresh", 356400000, true⟩],
        f.name = x ∧ isExpired 360000000 f = true ∧ f.deleteOk = true) ∧
    cleanupUploads 360000000
        ([⟨"old", 270000000, true⟩] ++ ⟨"bad", 270000000, false⟩ :: [⟨"fresh", 356400000, true⟩]) =
      cleanupUploads 360000000 ([⟨"old", 270000000, true⟩] ++ [⟨"fresh", 356400000, true⟩]) :=
  c5_cleanup_uploads_spec 360000000 _ _ _ _ rfl

/-! ## Processing-handler claim C6 -/

theorem processFiles_none {cfg : ProcConfig} {files : List ProcEntry} {e : ProcEntry}
    (hmem : e ∈ files) (hfail : e.execOk = false) :
    processFiles cfg files = none := by
  induction files with
  | nil => simp at hmem
  | cons a t ih =>
    rcases List.mem_cons.mp hmem with h1 | h1
    · subst h1
      unfold processFiles
      rw [if_neg (by simp [hfail])]
    · unfold processFiles
      by_cases ha : a.execOk = true
      · rw [if_pos ha, ih h1]
        rfl
      · rw [if_neg ha]

/-- C6: if any file of a batch makes the external `convert` invocation
fail, the whole batch is aborted: the response is the generic 500
processing failure, which carries no descriptor list — files processed
before the failure are not reported. -/
theorem c6_batch_abort (files : List ProcEntry) (cfg : ProcConfig) (e : ProcEntry)
    (hmem : e ∈ files) (hfail : e.execOk = false) :
    processPOST files cfg = ProcResponse.err "Failed to process images" 500 := by
  unfold processPOST
  have hne : files.isEmpty = false := by
    cases files
    · simp at hmem
    · rfl
  rw [if_neg (by simp [hne]), processFiles_none hmem hfail]

/-- Closed instance of the C6 theorem: a two-file batch whose second file
fails. -/
theorem c6_witness :
    processPOST [⟨"a.png", "t1", true⟩, ⟨"b.png", "t2", false⟩]
        ⟨true, 100, 100, false, "JPG"⟩ =
      ProcResponse.err "Failed to process images" 500 :=
  c6_batch_abort _ _ ⟨"b.png", "t2", false⟩ (by decide) rfl

/-! ## Upload-handler claims C2, C7, C8 -/

/-- C2 is refuted: a present but zero-length `File` is not caught by the
`!file` check, its size 0 passes the size check, and the magic-number
`every` over an empty signature array is vacuously true, so an empty
buffer declared `image/png` with a `.png` name is accepted. -/
theorem c2_counterexample :
    ((uploadPOST [] 0 "k" (some ⟨"a.png", "image/png", 0, []⟩) true
        ("17-k9z2").data none none).2).success = true := by decide

/-- C2 (amended): when the request is not rate limited, no unexpected
exception precedes the check, and the `file` form field is missing (or
not a `File`), the handler rejects with `INVALID_FILE` and status 400; a
present zero-length `File` is not covered by this check and can be
accepted. -/
theorem c2_missing_file_rejected (m : RLMap) (now : Nat) (ip : String)
    (statsOk : Bool) (uid : List Char) (wexc : Option String)
    (h : (checkRateLimit m now ip).2 = true) :
    (uploadPOST m now ip none statsOk uid none wexc).2 =
      ⟨false, some "No file provided or invalid file format",
        some "INVALID_FILE", 400, none⟩ := by
  simp only [uploadPOST]
  rw [if_neg (by simp [h])]
  rfl

/-- Closed instance of the amended C2 theorem on a fresh map. -/
theorem c2_witness :
    (uploadPOST [] 0 "k" none true ("17-k9z2").data none none).2 =
      ⟨false, some "No file provided or invalid file format",
        some "INVALID_FILE", 400, none⟩ :=
  c2_missing_file_rejected _ _ _ _ _ _ (by decide)

/-- C8: when the request is not rate limited and no `mkdir`/`formData`
exception precedes the check, a file strictly larger than 10 MiB is
rejected with `FILE_TOO_LARGE` and status 400 regardless of its content
(and regardless of any later write exception), and a file of exactly
10 MiB is never rejected with `FILE_TOO_LARGE`. -/
theorem c8_size_limit (m : RLMap) (now : Nat) (ip : String) (f : JsFile)
    (statsOk : Bool) (uid : List Char) (wexc : Option String)
    (h : (checkRateLimit m now ip).2 = true) :
    (MAX_FILE_SIZE < f.size →
      (uploadPOST m now ip (some f) statsOk uid none wexc).2 =
        ⟨false, some "File size exceeds maximum limit of 10MB",
          some "FILE_TOO_LARGE", 400, none⟩) ∧
    (f.size = MAX_FILE_SIZE →
      ((uploadPOST m now ip (some f) statsOk uid none wexc).2).code ≠
        some "FILE_TOO_LARGE") := by
  constructor
  · intro hsz
    cases wexc with
    | none =>
      simp only [uploadPOST]
      rw [if_neg (by simp [h]), if_pos hsz]
      rfl
    | some msg =>
      simp only [uploadPOST]
      rw [if_neg (by simp [h]), if_pos hsz]
      rfl
  · intro hsz
    cases wexc with
    | none =>
      simp only [uploadPOST]
      rw [if_neg (by simp [h]), if_neg (by omega)]
      by_cases hv : validateFileType f = false
      · rw [if_pos hv]
        show some "INVALID_FILE_TYPE" ≠ some "FILE_TOO_LARGE"
        decide
      · rw [if_neg hv]
        by_cases hst : statsOk = false
        · rw [if_pos hst]
          show some "WRITE_ERROR" ≠ some "FILE_TOO_LARGE"
          decide
        · rw [if_neg hst]
          show (none : Option String) ≠ some "FILE_TOO_LARGE"
          decide
    | some msg =>
      simp only [uploadPOST]
      rw [if_neg (by simp [h]), if_neg (by omega)]
      by_cases hv : validateFileType f = false
      · rw [if_pos hv]
        show some "INVALID_FILE_TYPE" ≠ some "FILE_TOO_LARGE"
        decide
      · rw [if_neg hv]
        show some "UNKNOWN_ERROR" ≠ some "FILE_TOO_LARGE"
        decide

/-- Closed instance of the C8 theorem at a 10 MiB + 1 byte PNG (and the
exact-limit guarantee at the same declared file). -/
theorem c8_witness :
    (MAX_FILE_SIZE < (⟨"a.png", "image/png", 10485761, [137, 80, 78, 71]⟩ : JsFile).size →
      (uploadPOST [] 0 "k" (some ⟨"a.png", "image/png", 10485761, [137, 80, 78, 71]⟩)
          true ("17-k9z2").data none none).2 =
        ⟨false, some "File size exceeds maximum limit of 10MB",
          some "FILE_TOO_LARGE", 400, none⟩) ∧
    ((⟨"a.png", "image/png", 10485761, [137, 80, 78, 71]⟩ : JsFile).size = MAX_FILE_SIZE →
      ((uploadPOST [] 0 "k" (some ⟨"a.png", "image/png", 10485761, [137, 80, 78, 71]⟩)
          true ("17-k9z2").data none none).2).code ≠ some "FILE_TOO_LARGE") :=
  c8_size_limit [] 0 "k" ⟨"a.png", "image/png", 10485761, [137, 80, 78, 71]⟩
    true ("17-k9z2").data none (by decide)

end ImageMagick
